import Mathlib

/-!
Shallow embedding of `chat_with_tools.py`: the streaming event decoder
(`stream_response`), the streaming phase interpreter
(`print_streaming_response`), the non-streaming adapter
(`print_non_streaming_response`), the request payload builders, and the
session update step of the REPL loop in `main`.  Terminal printing is
modelled by the RenderAction vocabulary of the spec: each `print` of the
source is mapped to the render action the spec assigns to it.
-/

namespace ChatWithTools

/-- Values taken by the `current_phase` variable of
`print_streaming_response` (the strings reasoning, code, executing,
function, text; `Option.none` models Python `None`). -/
inductive Phase
  | reasoning
  | code
  | executing
  | function
  | text
deriving DecidableEq

/-- Typed events, one constructor per `type` discriminator string the
source dispatches on; `unknown` covers every other discriminator.  The
`responseCreated` payload is the `id` field of the nested response
object (possibly absent); `outputItemAdded` carries the `type` and
`name` fields of the item. -/
inductive Event
  | responseCreated (id : Option String)
  | reasoningDelta (delta : String)
  | codeDelta (delta : String)
  | interpreting
  | completed
  | functionArgsDelta (delta : String)
  | outputTextDelta (delta : String)
  | outputItemAdded (itemType : String) (name : String)
  | unknown (ty : String)
deriving DecidableEq

/-- Render actions, the RenderAction vocabulary of the spec.  `beginPhase`
models a phase-header print (`[thinking]`, `[code]`,
`>>> Executing code...`, `[function call]`, the blank-line answer
header), `appendText` a delta/text print, `phaseClose` the `>>> Done`
marker, `toolAnnounce` the `[Tool Call: name]` print, `toolArgsNote`
the Arguments print of the adapter, `outputsNote` the output print
of the adapter, `usageNote` the `tool_output_tokens` print. -/
inductive RenderAction
  | beginPhase (p : Phase)
  | appendText (t : String)
  | phaseClose
  | toolAnnounce (name : String)
  | toolArgsNote (args : String)
  | outputsNote (outputs : List String)
  | usageNote (n : Nat)
deriving DecidableEq

/-- Mutable locals of `print_streaming_response`: `response_id` and
`current_phase`. -/
structure InterpState where
  responseId : Option String
  currentPhase : Option Phase
deriving DecidableEq

/-- Initial state of a turn: `response_id = None`,
`current_phase = None` (lines 96-97). -/
def initState : InterpState := ⟨none, none⟩

/-- Loop body of `print_streaming_response` (lines 101-149): one event
updates the state and emits render actions. -/
def stepEvent (s : InterpState) (e : Event) : InterpState × List RenderAction :=
  match e with
  | .responseCreated id => ({ s with responseId := id }, [])
  | .reasoningDelta d =>
      if s.currentPhase = some Phase.reasoning then
        (s, [RenderAction.appendText d])
      else
        ({ s with currentPhase := some Phase.reasoning },
         [RenderAction.beginPhase Phase.reasoning, RenderAction.appendText d])
  | .codeDelta d =>
      if s.currentPhase = some Phase.code then
        (s, [RenderAction.appendText d])
      else
        ({ s with currentPhase := some Phase.code },
         [RenderAction.beginPhase Phase.code, RenderAction.appendText d])
  | .interpreting =>
      ({ s with currentPhase := some Phase.executing },
       [RenderAction.beginPhase Phase.executing])
  | .completed => (s, [RenderAction.phaseClose])
  | .functionArgsDelta d =>
      if s.currentPhase = some Phase.function then
        (s, [RenderAction.appendText d])
      else
        ({ s with currentPhase := some Phase.function },
         [RenderAction.beginPhase Phase.function, RenderAction.appendText d])
  | .outputTextDelta d =>
      if s.currentPhase = some Phase.text then
        (s, [RenderAction.appendText d])
      else
        ({ s with currentPhase := some Phase.text },
         [RenderAction.beginPhase Phase.text, RenderAction.appendText d])
  | .outputItemAdded itemType name =>
      if itemType = "function_call" then (s, [RenderAction.toolAnnounce name])
      else (s, [])
  | .unknown _ => (s, [])

/-- Runs the interpreter loop over a whole event list, threading the
state and concatenating the emitted render actions. -/
def runFrom (s : InterpState) : List Event → InterpState × List RenderAction
  | [] => (s, [])
  | e :: es =>
      let p := stepEvent s e
      let q := runFrom p.1 es
      (q.1, p.2 ++ q.2)

/-- Whole of `print_streaming_response`: interpret the events of the turn
from the initial state, producing the render actions and returning the
captured `response_id` (line 152). -/
def print_streaming_response (evs : List Event) : List RenderAction × Option String :=
  let r := runFrom initState evs
  (r.2, r.1.responseId)

/-- Session update of the streaming branch of `main` (line 275):
`previous_id = print_streaming_response(...)` — the stored id is
replaced by whatever the interpreter returned. -/
def mainStreamTurnSession (_previous_id : Option String) (evs : List Event) : Option String :=
  (print_streaming_response evs).2

/-- Frame decoding loop of `stream_response` (lines 49-70): empty
lines and lines without the `data: ` marker are skipped, a `[DONE]`
payload ends the turn, a payload that fails JSON parsing is skipped
(`except json.JSONDecodeError: continue`), every parsed payload is
yielded as an event.  JSON parsing of a payload string is the external
`json.loads`, passed in as `parse` (`none` = parse failure). -/
def decodeLines (parse : String → Option Event) : List String → List Event
  | [] => []
  | l :: rest =>
      if l = "" then decodeLines parse rest
      else if ("data: ").data.isPrefixOf l.data then
        let d := String.mk (l.data.drop 6)
        if d = "[DONE]" then []
        else
          match parse d with
          | none => decodeLines parse rest
          | some e => e :: decodeLines parse rest
      else decodeLines parse rest

/-- Model string constant (line 25). -/
def MODEL : String := "openai/gpt-oss-20b"

/-- Tool descriptors are opaque to the core; modelled as strings. -/
abbrev ToolDesc : Type := String

/-- Request payload shared by `stream_response` and
`non_stream_response`; `previous_response_id` is optional. -/
structure RequestPayload where
  model : String
  input : String
  tools : List ToolDesc
  stream : Bool
  previous_response_id : Option String
deriving DecidableEq

/-- Python truthiness of an optional string: `None` and `""` are
falsy. -/
def pyTruthyStr : Option String → Bool
  | none => false
  | some s => decide (s ≠ "")

/-- Payload built by `stream_response` (lines 30-37): the
`previous_response_id` key is added only under `if previous_id:`. -/
def stream_response_payload (input : String) (tools : List ToolDesc)
    (previous_id : Option String) : RequestPayload :=
  { model := MODEL, input := input, tools := tools, stream := true,
    previous_response_id := if pyTruthyStr previous_id then previous_id else none }

/-- Payload built by `non_stream_response` (lines 77-84), identical
except `stream = False`. -/
def non_stream_response_payload (input : String) (tools : List ToolDesc)
    (previous_id : Option String) : RequestPayload :=
  { model := MODEL, input := input, tools := tools, stream := false,
    previous_response_id := if pyTruthyStr previous_id then previous_id else none }

/-- Output items of a finished response object, one constructor per
`item.type` the adapter dispatches on.  A `reasoningItem` carries the
`text` fields of its content blocks; a `message` carries
`(type, text)` pairs of its content blocks; `otherItem` covers
unmatched item types (printed as nothing). -/
inductive Item
  | reasoningItem (content : List String)
  | codeCall (code : String) (outputs : List String)
  | functionCall (name : String) (args : String)
  | message (content : List (String × String))
  | otherItem (ty : String)
deriving DecidableEq

/-- Finished response object: `id`, `output` items, and
`usage.output_tokens_details.tool_output_tokens`. -/
structure ResponseObj where
  id : Option String
  output : List Item
  toolOutputTokens : Nat
deriving DecidableEq

/-- Reasoning preview of the adapter (line 166):
`text[:200]` plus an ellipsis exactly when `len(text) > 200`. -/
def reasoningPreview (t : String) : String :=
  t.take 200 ++ if t.length > 200 then ("...") else ("")

/-- Per-item rendering of `print_non_streaming_response`
(lines 159-183), in the RenderAction vocabulary of the spec. -/
def renderItem : Item → List RenderAction
  | .reasoningItem content =>
      match content with
      | [] => []
      | t :: _ =>
          [RenderAction.beginPhase Phase.reasoning,
           RenderAction.appendText (reasoningPreview t)]
  | .codeCall code outputs =>
      [RenderAction.beginPhase Phase.code, RenderAction.appendText code] ++
        (if outputs = [] then [] else [RenderAction.outputsNote outputs])
  | .functionCall name args =>
      [RenderAction.toolAnnounce name, RenderAction.toolArgsNote args]
  | .message content =>
      (content.filter (fun c => c.1 = "output_text")).flatMap
        (fun c => [RenderAction.beginPhase Phase.text, RenderAction.appendText c.2])
  | .otherItem _ => []

/-- Usage summary print (lines 186-190): one `usageNote` exactly when
`tool_output_tokens > 0`. -/
def usageActions (r : ResponseObj) : List RenderAction :=
  if r.toolOutputTokens > 0 then [RenderAction.usageNote r.toolOutputTokens] else []

/-- Whole of `print_non_streaming_response` (lines 155-193): render
each output item in order, then the usage summary; return
the `id` field of the response. -/
def print_non_streaming_response (r : ResponseObj) : List RenderAction × Option String :=
  ((r.output.map renderItem).flatten ++ usageActions r, r.id)

/-- Delta-driven event kinds of the transition table of the interpreter
(reasoning-text, code-text, function-arguments, answer-text deltas). -/
inductive DeltaKind
  | reasoningK
  | codeK
  | functionK
  | textK
deriving DecidableEq

/-- Phase a delta kind drives. -/
def deltaPhase : DeltaKind → Phase
  | .reasoningK => Phase.reasoning
  | .codeK => Phase.code
  | .functionK => Phase.function
  | .textK => Phase.text

/-- Event carrying a delta of the given kind. -/
def deltaEvent : DeltaKind → String → Event
  | .reasoningK => Event.reasoningDelta
  | .codeK => Event.codeDelta
  | .functionK => Event.functionArgsDelta
  | .textK => Event.outputTextDelta

/-- Whether an event is an identifier snapshot (`response.created`). -/
def Event.isCreated : Event → Bool
  | .responseCreated _ => true
  | _ => false

/-- Payload of the last `response.created` event of a list, if any. -/
def lastCreated : List Event → Option (Option String)
  | [] => none
  | e :: es =>
      match lastCreated es with
      | some x => some x
      | none =>
          match e with
          | .responseCreated id => some id
          | _ => none

/-- Streaming delivery of one item of a finished response: the event
sequence the server would stream for it (reasoning content blocks as
reasoning deltas, a code call as its code delta plus the
interpreting/completed pair, a function call as its `output_item.added`
announcement plus an arguments delta, the `output_text` blocks of a message
as answer-text deltas). -/
def eventsOfItem : Item → List Event
  | .reasoningItem content => content.map Event.reasoningDelta
  | .codeCall code _ => [Event.codeDelta code, Event.interpreting, Event.completed]
  | .functionCall name args =>
      [Event.outputItemAdded ("function_call") name, Event.functionArgsDelta args]
  | .message content =>
      (content.filter (fun c => c.1 = "output_text")).map
        (fun c => Event.outputTextDelta c.2)
  | .otherItem _ => []

/-- Streaming delivery of a whole finished response: the identifier
snapshot followed by the events of each item in order. -/
def eventsOfResponse (r : ResponseObj) : List Event :=
  Event.responseCreated r.id :: (r.output.map eventsOfItem).flatten

/-- Phases entered by a render-action sequence: the arguments of its
`beginPhase` actions, in order. -/
def phasesEntered (as : List RenderAction) : List Phase :=
  as.filterMap fun a =>
    match a with
    | .beginPhase p => some p
    | _ => none

/-- Phase an action list leaves current, starting from `ph`: the
argument of the last `beginPhase`, if any. -/
def phaseTrack (ph : Option Phase) : List RenderAction → Option Phase
  | [] => ph
  | .beginPhase p :: rest => phaseTrack (some p) rest
  | _ :: rest => phaseTrack ph rest

/-- Answer text visible in a render-action sequence: the concatenation
of `appendText` payloads printed while the answering (`text`) phase is
the one last begun, starting from phase `ph`. -/
def answerTextAux (ph : Option Phase) : List RenderAction → String
  | [] => ""
  | .beginPhase p :: rest => answerTextAux (some p) rest
  | .appendText t :: rest =>
      (if ph = some Phase.text then t else ("")) ++ answerTextAux ph rest
  | _ :: rest => answerTextAux ph rest

/-- Answer text of a render-action sequence from no open phase. -/
def answerText (as : List RenderAction) : String := answerTextAux none as

/-- Concatenation of a list of strings. -/
def strConcat : List String → String
  | [] => ""
  | s :: rest => s ++ strConcat rest

/-- Answer text a single item contributes: its `output_text` blocks for
a message, nothing otherwise. -/
def itemAnswer : Item → String
  | .message content =>
      strConcat ((content.filter (fun c => c.1 = "output_text")).map (fun c => c.2))
  | _ => ""

/-- Items that drive neither code execution nor a function call. -/
def simpleItem : Item → Bool
  | .codeCall _ _ => false
  | .functionCall _ _ => false
  | _ => true

/-- Counts the `appendText` actions of a render-action sequence. -/
def countAppend (as : List RenderAction) : Nat :=
  (as.filter fun a =>
    match a with
    | .appendText _ => true
    | _ => false).length

/-- Phases the adapter enters for one output item. -/
def itemPhases (it : Item) : List Phase := phasesEntered (renderItem it)

/-- Example JSON parse oracle for the malformed-frame property:
payloads `A` and `B` parse to answer-text deltas, everything else
fails to parse. -/
def demoParse : String → Option Event
  | "A" => some (Event.outputTextDelta ("x"))
  | "B" => some (Event.outputTextDelta ("y"))
  | _ => none

theorem runFrom_append (s : InterpState) (xs ys : List Event) :
    runFrom s (xs ++ ys) =
      ((runFrom (runFrom s xs).1 ys).1,
       (runFrom s xs).2 ++ (runFrom (runFrom s xs).1 ys).2) := by
  induction xs generalizing s with
  | nil => simp [runFrom]
  | cons e es ih => simp [runFrom, ih, List.append_assoc]

theorem stepEvent_responseId (s : InterpState) (e : Event) :
    (stepEvent s e).1.responseId =
      match e with
      | .responseCreated id => id
      | _ => s.responseId := by
  cases e <;> simp [stepEvent] <;> split <;> rfl

theorem runFrom_responseId (evs : List Event) (s : InterpState) :
    (runFrom s evs).1.responseId = (lastCreated evs).getD s.responseId := by
  induction evs generalizing s with
  | nil => rfl
  | cons e es ih =>
      show (runFrom (stepEvent s e).1 es).1.responseId = _
      rw [ih]
      cases h : lastCreated es with
      | some x => simp [lastCreated, h]
      | none => cases e <;> simp [lastCreated, h, stepEvent_responseId]

theorem lastCreated_eq_none (evs : List Event)
    (h : ∀ e ∈ evs, e.isCreated = false) : lastCreated evs = none := by
  induction evs with
  | nil => rfl
  | cons e es ih =>
      have hes : ∀ x ∈ es, x.isCreated = false := fun x hx => h x (by simp [hx])
      simp only [lastCreated, ih hes]
      have he := h e (by simp)
      cases e <;> simp_all [Event.isCreated]

theorem stepEvent_delta (k : DeltaKind) (s : InterpState) (d : String) :
    stepEvent s (deltaEvent k d) =
      if s.currentPhase = some (deltaPhase k) then (s, [RenderAction.appendText d])
      else ({ s with currentPhase := some (deltaPhase k) },
            [RenderAction.beginPhase (deltaPhase k), RenderAction.appendText d]) := by
  cases k <;> rfl

theorem runFrom_deltas_same (k : DeltaKind) (ts : List String) (s : InterpState)
    (h : s.currentPhase = some (deltaPhase k)) :
    runFrom s (ts.map (deltaEvent k)) = (s, ts.map RenderAction.appendText) := by
  induction ts with
  | nil => rfl
  | cons t ts ih => simp [runFrom, stepEvent_delta, h, ih]

/-- C1: with no identifier-snapshot event in the turn, the interpreter
returns `conversationId = none`, and the streaming branch of `main`
stores that `none` into `previous_id`, overwriting the previously
stored session id of the caller. -/
theorem no_created_returns_none_and_session_overwritten
    (prev : Option String) (evs : List Event)
    (h : ∀ e ∈ evs, e.isCreated = false) :
    (print_streaming_response evs).2 = none ∧
      mainStreamTurnSession prev evs = none := by
  have hn : (print_streaming_response evs).2 = none := by
    simp [print_streaming_response, runFrom_responseId, lastCreated_eq_none evs h, initState]
  exact ⟨hn, hn⟩

/-- C1 witness: concrete instance of the previous theorem. -/
theorem no_created_returns_none_and_session_overwritten_witness :
    (print_streaming_response [Event.reasoningDelta ("hi")]).2 = none ∧
      mainStreamTurnSession (some ("abc")) [Event.reasoningDelta ("hi")] = none :=
  no_created_returns_none_and_session_overwritten (some ("abc"))
    [Event.reasoningDelta ("hi")] (by decide)

/-- C1 counterexample: a previously stored session id `abc` is not
preserved across a turn with no identifier-snapshot event — the stored
value becomes `none`. -/
theorem no_created_preserves_session_cex :
    mainStreamTurnSession (some ("abc")) [Event.reasoningDelta ("hi")] = none ∧
      mainStreamTurnSession (some ("abc")) [Event.reasoningDelta ("hi")] ≠ some ("abc") := by
  decide

/-- C3 counterexample: with two identifier-snapshot events carrying
distinct ids `a` then `b`, the interpreter returns `b` (the last one),
not `a` (the first one). -/
theorem first_created_id_cex :
    (print_streaming_response
        [Event.responseCreated (some ("a")), Event.responseCreated (some ("b"))]).2 = some ("b") ∧
      (print_streaming_response
        [Event.responseCreated (some ("a")), Event.responseCreated (some ("b"))]).2 ≠ some ("a") := by
  decide

/-- C3 amended: the conversationId returned by the interpreter is the
payload of the last identifier-snapshot event of the turn (none when
there is no such event) — every later `response.created` overwrites
the captured id. -/
theorem conversation_id_is_last_created (evs : List Event) :
    (print_streaming_response evs).2 = (lastCreated evs).getD none := by
  simp [print_streaming_response, runFrom_responseId, initState]

/-- C4: from a phase different from the one the delta kind drives, N >= 1 consecutive
deltas of one kind produce exactly one `beginPhase` of that kind
followed by N `appendText` actions, uniformly in the delta kind. -/
theorem delta_begin_phase_idempotent (k : DeltaKind) (s : InterpState)
    (t : String) (ts : List String) (h : s.currentPhase ≠ some (deltaPhase k)) :
    (runFrom s ((t :: ts).map (deltaEvent k))).2 =
      RenderAction.beginPhase (deltaPhase k) :: (t :: ts).map RenderAction.appendText := by
  have h2 := runFrom_deltas_same k ts { s with currentPhase := some (deltaPhase k) } rfl
  simp [runFrom, stepEvent_delta, h, h2]

/-- C4 witness: three consecutive reasoning deltas from the initial
state produce one `beginPhase(reasoning)` and three `appendText`. -/
theorem delta_begin_phase_idempotent_witness :
    (runFrom initState (("a" :: ["b", "c"]).map (deltaEvent DeltaKind.reasoningK))).2 =
      RenderAction.beginPhase (deltaPhase DeltaKind.reasoningK) ::
        ("a" :: ["b", "c"]).map RenderAction.appendText :=
  delta_begin_phase_idempotent DeltaKind.reasoningK initState ("a") ["b", "c"] (by decide)

/-- C5: a `function_call`-typed `output_item.added` event emits
`toolAnnounce(name)` from every state and changes neither the current
phase nor the captured conversation id (the state is returned
unchanged). -/
theorem tool_announce_frame (s : InterpState) (name : String) :
    stepEvent s (Event.outputItemAdded ("function_call") name) =
      (s, [RenderAction.toolAnnounce name]) := by
  simp [stepEvent]

/-- C6 counterexample: after `interpreting` then `completed`, the
current phase of the interpreter is still `executing`, not `none`. -/
theorem completed_phase_none_cex :
    (runFrom initState [Event.interpreting, Event.completed]).1.currentPhase
        = some Phase.executing ∧
      (runFrom initState [Event.interpreting, Event.completed]).1.currentPhase ≠ none := by
  decide

/-- C6 amended: a `completed` event emits the phase-closing marker and
leaves the state (hence the current phase) unchanged; because the
`executing` phase differs from every delta-driven phase, the very next
delta of any kind still begins a new phase. -/
theorem completed_keeps_phase_next_delta_begins (s : InterpState) (k : DeltaKind)
    (d : String) :
    stepEvent s Event.completed = (s, [RenderAction.phaseClose]) ∧
      (s.currentPhase = some Phase.executing →
        (runFrom s [Event.completed, deltaEvent k d]).2 =
          [RenderAction.phaseClose, RenderAction.beginPhase (deltaPhase k),
           RenderAction.appendText d]) := by
  refine ⟨rfl, fun h => ?_⟩
  cases k <;> simp [runFrom, stepEvent, deltaEvent, deltaPhase, h]

/-- C6 witness: concrete instance from the state reached after
`interpreting`. -/
theorem completed_keeps_phase_next_delta_begins_witness :
    stepEvent ⟨none, some Phase.executing⟩ Event.completed
        = (⟨none, some Phase.executing⟩, [RenderAction.phaseClose]) ∧
      (runFrom ⟨none, some Phase.executing⟩
          [Event.completed, deltaEvent DeltaKind.reasoningK ("x")]).2 =
        [RenderAction.phaseClose, RenderAction.beginPhase (deltaPhase DeltaKind.reasoningK),
         RenderAction.appendText ("x")] :=
  ⟨(completed_keeps_phase_next_delta_begins ⟨none, some Phase.executing⟩
      DeltaKind.reasoningK ("x")).1,
   (completed_keeps_phase_next_delta_begins ⟨none, some Phase.executing⟩
      DeltaKind.reasoningK ("x")).2 rfl⟩

/-- C9: in both request builders, the payload carries
`previous_response_id = s` exactly when the supplied continuation id is
present and equal to the non-empty `s`; `none` and the empty string are
both omitted. -/
theorem previous_response_id_iff (input : String) (tools : List ToolDesc)
    (prev : Option String) (s : String) :
    ((stream_response_payload input tools prev).previous_response_id = some s ↔
        prev = some s ∧ s ≠ "") ∧
      ((non_stream_response_payload input tools prev).previous_response_id = some s ↔
        prev = some s ∧ s ≠ "") := by
  cases prev with
  | none => simp [stream_response_payload, non_stream_response_payload, pyTruthyStr]
  | some t =>
      by_cases ht : t = "" <;>
        simp [stream_response_payload, non_stream_response_payload, pyTruthyStr, ht] <;>
        intro hh <;> simp_all

theorem reasoningPreview_of_length_le (t : String) (h : t.length ≤ 200) :
    reasoningPreview t = t := by
  unfold reasoningPreview
  rw [if_neg (by omega), String.append_empty, String.take_eq]
  cases t with
  | mk l =>
      have hl : l.length ≤ 200 := by simpa using h
      simp [List.take_of_length_le hl]

/-- C7: in the adapter, a reasoning content block of exactly 200
characters is shown in full with no ellipsis marker, and one of 201
characters is shown as its first 200 characters followed by the
ellipsis marker. -/
theorem reasoning_truncation_boundary (t : String) :
    (t.length = 200 → renderItem (Item.reasoningItem [t]) =
        [RenderAction.beginPhase Phase.reasoning, RenderAction.appendText t]) ∧
      (t.length = 201 → renderItem (Item.reasoningItem [t]) =
        [RenderAction.beginPhase Phase.reasoning,
         RenderAction.appendText (t.take 200 ++ "...")]) := by
  constructor
  · intro h
    simp [renderItem, reasoningPreview_of_length_le t h.le]
  · intro h
    simp [renderItem, reasoningPreview, h]

set_option maxRecDepth 100000 in
/-- C7 witness: concrete strings of 200 and 201 characters. -/
theorem reasoning_truncation_boundary_witness :
    renderItem (Item.reasoningItem [String.mk (List.replicate 200 'a')]) =
        [RenderAction.beginPhase Phase.reasoning,
         RenderAction.appendText (String.mk (List.replicate 200 'a'))] ∧
      renderItem (Item.reasoningItem [String.mk (List.replicate 201 'a')]) =
        [RenderAction.beginPhase Phase.reasoning,
         RenderAction.appendText ((String.mk (List.replicate 201 'a')).take 200 ++ "...")] :=
  ⟨(reasoning_truncation_boundary (String.mk (List.replicate 200 'a'))).1 (by decide),
   (reasoning_truncation_boundary (String.mk (List.replicate 201 'a'))).2 (by decide)⟩

/-- C8: a data frame whose payload fails JSON parsing is skipped — the
decoded event list is the same as if the frame were absent — and the
concrete stream `[valid-delta, garbage-frame, valid-delta, DONE]`
yields exactly two `appendText` actions. -/
theorem malformed_frame_skipped (parse : String → Option Event)
    (pre post : List String) (l : String)
    (hp : ("data: ").data.isPrefixOf l.data = true)
    (hd : String.mk (l.data.drop 6) ≠ "[DONE]")
    (hparse : parse (String.mk (l.data.drop 6)) = none) :
    decodeLines parse (pre ++ l :: post) = decodeLines parse (pre ++ post) ∧
      countAppend (print_streaming_response
        (decodeLines demoParse ["data: A", "data: garbage", "data: B", "data: [DONE]"])).1
        = 2 := by
  refine ⟨?_, by decide⟩
  have hne : l ≠ "" := by
    intro he
    rw [he] at hp
    simp [List.isPrefixOf] at hp
  induction pre with
  | nil => simp [decodeLines, hne, hp, hd, hparse]
  | cons x pre ih =>
      by_cases hx : x = ""
      · simpa [decodeLines, hx] using ih
      · by_cases hpx : ("data: ").data.isPrefixOf x.data = true
        · by_cases hdx : String.mk (x.data.drop 6) = "[DONE]"
          · simp [decodeLines, hx, hpx, hdx]
          · cases hpp : parse (String.mk (x.data.drop 6)) with
            | none => simpa [decodeLines, hx, hpx, hdx, hpp] using ih
            | some e => simp [decodeLines, hx, hpx, hdx, hpp, ih]
        · simpa [decodeLines, hx, hpx] using ih

/-- C8 witness: the concrete garbage frame is dropped from the decoded
stream. -/
theorem malformed_frame_skipped_witness :
    (decodeLines demoParse
        (["data: A"] ++ "data: garbage" :: ["data: B", "data: [DONE]"]) =
      decodeLines demoParse (["data: A"] ++ ["data: B", "data: [DONE]"])) ∧
      countAppend (print_streaming_response
        (decodeLines demoParse ["data: A", "data: garbage", "data: B", "data: [DONE]"])).1
        = 2 :=
  malformed_frame_skipped demoParse ["data: A"] ["data: B", "data: [DONE]"]
    "data: garbage" (by decide) (by decide) (by decide)

/-- C10: a reasoning item with an empty content list produces no render
actions at all, while a nonempty one produces the reasoning header and
the preview of its first content block. -/
theorem empty_reasoning_renders_nothing :
    renderItem (Item.reasoningItem []) = [] ∧
      ∀ t rest, renderItem (Item.reasoningItem (t :: rest)) =
        [RenderAction.beginPhase Phase.reasoning,
         RenderAction.appendText (reasoningPreview t)] :=
  ⟨rfl, fun _ _ => rfl⟩

theorem runFrom_cons (s : InterpState) (e : Event) (es : List Event) :
    runFrom s (e :: es) =
      ((runFrom (stepEvent s e).1 es).1,
       (stepEvent s e).2 ++ (runFrom (stepEvent s e).1 es).2) := rfl

theorem phaseTrack_append (ph : Option Phase) (as bs : List RenderAction) :
    phaseTrack ph (as ++ bs) = phaseTrack (phaseTrack ph as) bs := by
  induction as generalizing ph with
  | nil => rfl
  | cons a as ih => cases a <;> simp [phaseTrack, ih]

theorem answerTextAux_append (ph : Option Phase) (as bs : List RenderAction) :
    answerTextAux ph (as ++ bs) =
      answerTextAux ph as ++ answerTextAux (phaseTrack ph as) bs := by
  induction as generalizing ph with
  | nil => simp [answerTextAux, phaseTrack]
  | cons a as ih => cases a <;> simp [answerTextAux, phaseTrack, ih, String.append_assoc]

theorem stepEvent_phaseTrack (s : InterpState) (e : Event) :
    phaseTrack s.currentPhase (stepEvent s e).2 = (stepEvent s e).1.currentPhase := by
  cases e <;> simp only [stepEvent] <;> first
    | rfl
    | (split <;> rfl)

theorem runFrom_phaseTrack (es : List Event) (s : InterpState) :
    phaseTrack s.currentPhase (runFrom s es).2 = (runFrom s es).1.currentPhase := by
  induction es generalizing s with
  | nil => rfl
  | cons e es ih =>
      rw [runFrom_cons]
      show phaseTrack s.currentPhase ((stepEvent s e).2 ++ _) = _
      rw [phaseTrack_append, stepEvent_phaseTrack]
      exact ih (stepEvent s e).1

theorem phasesEntered_append (as bs : List RenderAction) :
    phasesEntered (as ++ bs) = phasesEntered as ++ phasesEntered bs :=
  List.filterMap_append ..

theorem phasesEntered_appendTexts (ts : List String) :
    phasesEntered (ts.map RenderAction.appendText) = [] := by
  induction ts with
  | nil => rfl
  | cons t ts ih => simp [phasesEntered, List.filterMap_cons, ih]

theorem runFrom_deltas_ne (k : DeltaKind) (t : String) (ts : List String)
    (s : InterpState) (h : s.currentPhase ≠ some (deltaPhase k)) :
    runFrom s ((t :: ts).map (deltaEvent k)) =
      ({ s with currentPhase := some (deltaPhase k) },
       RenderAction.beginPhase (deltaPhase k) :: (t :: ts).map RenderAction.appendText) := by
  have h2 := runFrom_deltas_same k ts { s with currentPhase := some (deltaPhase k) } rfl
  simp [runFrom, stepEvent_delta, h, h2]

theorem runFrom_reasoning_same (ts : List String) (s : InterpState)
    (h : s.currentPhase = some Phase.reasoning) :
    runFrom s (ts.map Event.reasoningDelta) = (s, ts.map RenderAction.appendText) :=
  runFrom_deltas_same DeltaKind.reasoningK ts s h

theorem runFrom_reasoning_ne (t : String) (ts : List String) (s : InterpState)
    (h : s.currentPhase ≠ some Phase.reasoning) :
    runFrom s ((t :: ts).map Event.reasoningDelta) =
      ({ s with currentPhase := some Phase.reasoning },
       RenderAction.beginPhase Phase.reasoning ::
         (t :: ts).map RenderAction.appendText) :=
  runFrom_deltas_ne DeltaKind.reasoningK t ts s h

theorem runFrom_text_same (ts : List String) (s : InterpState)
    (h : s.currentPhase = some Phase.text) :
    runFrom s (ts.map Event.outputTextDelta) = (s, ts.map RenderAction.appendText) :=
  runFrom_deltas_same DeltaKind.textK ts s h

theorem runFrom_text_ne (t : String) (ts : List String) (s : InterpState)
    (h : s.currentPhase ≠ some Phase.text) :
    runFrom s ((t :: ts).map Event.outputTextDelta) =
      ({ s with currentPhase := some Phase.text },
       RenderAction.beginPhase Phase.text ::
         (t :: ts).map RenderAction.appendText) :=
  runFrom_deltas_ne DeltaKind.textK t ts s h

theorem answerTextAux_message_blocks (l : List (String × String)) (ph : Option Phase) :
    answerTextAux ph (l.flatMap
        (fun c => [RenderAction.beginPhase Phase.text, RenderAction.appendText c.2])) =
      strConcat (l.map (fun c => c.2)) := by
  induction l generalizing ph with
  | nil => rfl
  | cons c l ih =>
      rw [List.flatMap_cons, answerTextAux_append]
      simp [answerTextAux, phaseTrack, strConcat, ih]

theorem answerTextAux_adapter_item (it : Item) (ph : Option Phase) :
    answerTextAux ph (renderItem it) = itemAnswer it := by
  cases it with
  | reasoningItem content =>
      cases content <;> simp [renderItem, answerTextAux, itemAnswer]
  | codeCall code outputs =>
      by_cases h : outputs = [] <;> simp [renderItem, answerTextAux, itemAnswer, h]
  | functionCall name args => simp [renderItem, answerTextAux, itemAnswer]
  | message content =>
      simpa [renderItem, itemAnswer] using
        answerTextAux_message_blocks (content.filter (fun c => c.1 = "output_text")) ph
  | otherItem ty => rfl

theorem answer_reasoning_deltas (ts : List String) (s : InterpState) :
    answerTextAux s.currentPhase (runFrom s (ts.map Event.reasoningDelta)).2 = "" := by
  induction ts generalizing s with
  | nil => rfl
  | cons t ts ih =>
      rw [List.map_cons, runFrom_cons]
      show answerTextAux s.currentPhase
        ((stepEvent s (Event.reasoningDelta t)).2 ++ _) = ""
      rw [answerTextAux_append, stepEvent_phaseTrack]
      have h1 : answerTextAux s.currentPhase (stepEvent s (Event.reasoningDelta t)).2 = "" := by
        by_cases h : s.currentPhase = some Phase.reasoning <;>
          simp [stepEvent, h, answerTextAux]
      rw [h1, ih]
      rfl

theorem answer_text_deltas (ts : List String) (s : InterpState) :
    answerTextAux s.currentPhase (runFrom s (ts.map Event.outputTextDelta)).2 =
      strConcat ts := by
  induction ts generalizing s with
  | nil => rfl
  | cons t ts ih =>
      rw [List.map_cons, runFrom_cons]
      show answerTextAux s.currentPhase
        ((stepEvent s (Event.outputTextDelta t)).2 ++ _) = _
      rw [answerTextAux_append, stepEvent_phaseTrack]
      have h1 : answerTextAux s.currentPhase (stepEvent s (Event.outputTextDelta t)).2 = t := by
        by_cases h : s.currentPhase = some Phase.text <;>
          simp [stepEvent, h, answerTextAux]
      rw [h1, ih]
      rfl

theorem answer_stream_item (it : Item) (s : InterpState) :
    answerTextAux s.currentPhase (runFrom s (eventsOfItem it)).2 = itemAnswer it := by
  cases it with
  | reasoningItem content =>
      simpa [eventsOfItem, itemAnswer] using answer_reasoning_deltas content s
  | codeCall code outputs =>
      by_cases h : s.currentPhase = some Phase.code <;>
        simp [eventsOfItem, runFrom, stepEvent, h, answerTextAux, itemAnswer]
  | functionCall name args =>
      by_cases h : s.currentPhase = some Phase.function <;>
        simp [eventsOfItem, runFrom, stepEvent, h, answerTextAux, itemAnswer]
  | message content =>
      have hm : (content.filter (fun c => c.1 = "output_text")).map
          (fun c => Event.outputTextDelta c.2) =
          ((content.filter (fun c => c.1 = "output_text")).map (fun c => c.2)).map
            Event.outputTextDelta := by
        rw [List.map_map]
        rfl
      have := answer_text_deltas
        ((content.filter (fun c => c.1 = "output_text")).map (fun c => c.2)) s
      rw [← hm] at this
      simpa [eventsOfItem, itemAnswer] using this
  | otherItem ty => rfl

theorem answer_stream_items (items : List Item) (s : InterpState) :
    answerTextAux s.currentPhase (runFrom s ((items.map eventsOfItem).flatten)).2 =
      strConcat (items.map itemAnswer) := by
  induction items generalizing s with
  | nil => rfl
  | cons it items ih =>
      rw [List.map_cons, List.flatten_cons, runFrom_append, answerTextAux_append,
          runFrom_phaseTrack, answer_stream_item]
      rw [ih (runFrom s (eventsOfItem it)).1]
      rfl

theorem answer_adapter_items (items : List Item) (ph : Option Phase) :
    answerTextAux ph ((items.map renderItem).flatten) =
      strConcat (items.map itemAnswer) := by
  induction items generalizing ph with
  | nil => rfl
  | cons it items ih =>
      rw [List.map_cons, List.flatten_cons, answerTextAux_append,
          answerTextAux_adapter_item, ih]
      rfl

theorem answerTextAux_usage (r : ResponseObj) (ph : Option Phase) :
    answerTextAux ph (usageActions r) = "" := by
  by_cases h : r.toolOutputTokens > 0 <;> simp [usageActions, h, answerTextAux]

theorem phaseTrack_mem (as : List RenderAction) (ph : Option Phase) (p : Phase)
    (h : phaseTrack ph as = some p) (hne : ph ≠ some p) : p ∈ phasesEntered as := by
  induction as generalizing ph with
  | nil => exact absurd h hne
  | cons a as ih =>
      cases a with
      | beginPhase q =>
          by_cases hq : q = p
          · simp [phasesEntered, List.filterMap_cons, hq]
          · have hm := ih (some q) (by simpa [phaseTrack] using h)
              (by simp [hq])
            simp [phasesEntered, List.filterMap_cons]
            exact Or.inr (by simpa [phasesEntered] using hm)
      | appendText t =>
          simpa [phasesEntered, List.filterMap_cons] using
            ih ph (by simpa [phaseTrack] using h) hne
      | phaseClose =>
          simpa [phasesEntered, List.filterMap_cons] using
            ih ph (by simpa [phaseTrack] using h) hne
      | toolAnnounce name =>
          simpa [phasesEntered, List.filterMap_cons] using
            ih ph (by simpa [phaseTrack] using h) hne
      | toolArgsNote args =>
          simpa [phasesEntered, List.filterMap_cons] using
            ih ph (by simpa [phaseTrack] using h) hne
      | outputsNote outputs =>
          simpa [phasesEntered, List.filterMap_cons] using
            ih ph (by simpa [phaseTrack] using h) hne
      | usageNote n =>
          simpa [phasesEntered, List.filterMap_cons] using
            ih ph (by simpa [phaseTrack] using h) hne

theorem phasesEntered_cons_begin (q : Phase) (rest : List RenderAction) :
    phasesEntered (RenderAction.beginPhase q :: rest) = q :: phasesEntered rest := rfl

theorem phasesEntered_blocks (l : List (String × String)) :
    phasesEntered (l.flatMap
        (fun c => [RenderAction.beginPhase Phase.text, RenderAction.appendText c.2])) =
      l.map (fun _ => Phase.text) := by
  induction l with
  | nil => rfl
  | cons c l ih =>
      rw [List.flatMap_cons, phasesEntered_append, ih]
      rfl

theorem itemPhases_message (content : List (String × String)) :
    itemPhases (Item.message content) =
      (content.filter (fun c => c.1 = "output_text")).map (fun _ => Phase.text) :=
  phasesEntered_blocks _

theorem itemPhases_reasoning_cons (t : String) (ts : List String) :
    itemPhases (Item.reasoningItem (t :: ts)) = [Phase.reasoning] := rfl

theorem mapDeltas_message (c : String × String) (l : List (String × String)) :
    (c :: l).map (fun c => Event.outputTextDelta c.2) =
      (c.2 :: l.map (fun c => c.2)).map Event.outputTextDelta := by
  simp [List.map_map]

theorem stream_phases_item_sound (it : Item) (s : InterpState) (p : Phase)
    (hsi : simpleItem it = true)
    (hp : p ∈ phasesEntered (runFrom s (eventsOfItem it)).2) : p ∈ itemPhases it := by
  cases it with
  | reasoningItem content =>
      cases content with
      | nil => simp [eventsOfItem, runFrom, phasesEntered] at hp
      | cons t ts =>
          rw [itemPhases_reasoning_cons]
          simp only [eventsOfItem] at hp
          by_cases h : s.currentPhase = some Phase.reasoning
          · rw [runFrom_reasoning_same (t :: ts) s h] at hp
            rw [show ((s, (t :: ts).map RenderAction.appendText)).2
                  = (t :: ts).map RenderAction.appendText from rfl,
                phasesEntered_appendTexts] at hp
            simp at hp
          · rw [runFrom_reasoning_ne t ts s h] at hp
            rw [show (({ s with currentPhase := some Phase.reasoning },
                  RenderAction.beginPhase Phase.reasoning ::
                    (t :: ts).map RenderAction.appendText)).2
                  = RenderAction.beginPhase Phase.reasoning ::
                    (t :: ts).map RenderAction.appendText from rfl,
                phasesEntered_cons_begin, phasesEntered_appendTexts] at hp
            simpa using hp
  | codeCall code outputs => simp [simpleItem] at hsi
  | functionCall name args => simp [simpleItem] at hsi
  | message content =>
      rw [itemPhases_message]
      simp only [eventsOfItem] at hp
      rcases hfl : content.filter (fun c => c.1 = "output_text") with _ | ⟨c, l⟩
      · rw [hfl] at hp
        simp [runFrom, phasesEntered] at hp
      · rw [hfl, mapDeltas_message] at hp
        rw [hfl]
        by_cases h : s.currentPhase = some Phase.text
        · rw [runFrom_text_same (c.2 :: l.map (fun c => c.2)) s h] at hp
          rw [show ((s, (c.2 :: l.map (fun c => c.2)).map RenderAction.appendText)).2
                = (c.2 :: l.map (fun c => c.2)).map RenderAction.appendText from rfl,
              phasesEntered_appendTexts] at hp
          simp at hp
        · rw [runFrom_text_ne c.2 (l.map (fun c => c.2)) s h] at hp
          rw [show (({ s with currentPhase := some Phase.text },
                RenderAction.beginPhase Phase.text ::
                  (c.2 :: l.map (fun c => c.2)).map RenderAction.appendText)).2
                = RenderAction.beginPhase Phase.text ::
                  (c.2 :: l.map (fun c => c.2)).map RenderAction.appendText from rfl,
              phasesEntered_cons_begin, phasesEntered_appendTexts] at hp
          simp at hp
          simp [hp]
  | otherItem ty => simp [eventsOfItem, runFrom, phasesEntered] at hp

theorem stream_phases_item_complete (it : Item) (s : InterpState) (p : Phase)
    (hsi : simpleItem it = true) (hcur : s.currentPhase ≠ some p)
    (hp : p ∈ itemPhases it) :
    p ∈ phasesEntered (runFrom s (eventsOfItem it)).2 := by
  cases it with
  | reasoningItem content =>
      cases content with
      | nil => simp [itemPhases, renderItem, phasesEntered] at hp
      | cons t ts =>
          rw [itemPhases_reasoning_cons] at hp
          simp only [List.mem_singleton] at hp
          subst hp
          simp only [eventsOfItem]
          rw [runFrom_reasoning_ne t ts s hcur]
          rw [show (({ s with currentPhase := some Phase.reasoning },
                RenderAction.beginPhase Phase.reasoning ::
                  (t :: ts).map RenderAction.appendText)).2
                = RenderAction.beginPhase Phase.reasoning ::
                  (t :: ts).map RenderAction.appendText from rfl,
              phasesEntered_cons_begin]
          simp
  | codeCall code outputs => simp [simpleItem] at hsi
  | functionCall name args => simp [simpleItem] at hsi
  | message content =>
      rw [itemPhases_message] at hp
      simp only [eventsOfItem]
      rcases hfl : content.filter (fun c => c.1 = "output_text") with _ | ⟨c, l⟩
      · rw [hfl] at hp
        simp at hp
      · have hpt : p = Phase.text := by
          rw [hfl] at hp
          rcases List.mem_map.mp hp with ⟨a, _, ha⟩
          exact ha.symm
        subst hpt
        rw [hfl, mapDeltas_message]
        rw [runFrom_text_ne c.2 (l.map (fun c => c.2)) s hcur]
        rw [show (({ s with currentPhase := some Phase.text },
              RenderAction.beginPhase Phase.text ::
                (c.2 :: l.map (fun c => c.2)).map RenderAction.appendText)).2
              = RenderAction.beginPhase Phase.text ::
                (c.2 :: l.map (fun c => c.2)).map RenderAction.appendText from rfl,
            phasesEntered_cons_begin]
        simp
  | otherItem ty => simp [itemPhases, renderItem, phasesEntered] at hp

theorem runFrom_append_snd (s : InterpState) (xs ys : List Event) :
    (runFrom s (xs ++ ys)).2 =
      (runFrom s xs).2 ++ (runFrom (runFrom s xs).1 ys).2 := by
  rw [runFrom_append]

theorem stream_phases_sound (items : List Item) (s : InterpState) (p : Phase)
    (hs : ∀ it ∈ items, simpleItem it = true)
    (hp : p ∈ phasesEntered (runFrom s ((items.map eventsOfItem).flatten)).2) :
    ∃ it ∈ items, p ∈ itemPhases it := by
  induction items generalizing s with
  | nil => simp [runFrom, phasesEntered] at hp
  | cons it items ih =>
      rw [List.map_cons, List.flatten_cons, runFrom_append_snd, phasesEntered_append,
        List.mem_append] at hp
      rcases hp with hp | hp
      · exact ⟨it, by simp, stream_phases_item_sound it s p (hs it (by simp)) hp⟩
      · obtain ⟨x, hmem, hpi⟩ := ih (runFrom s (eventsOfItem it)).1
          (fun y hy => hs y (by simp [hy])) hp
        exact ⟨x, by simp [hmem], hpi⟩

theorem stream_phases_complete (items : List Item) (s : InterpState) (p : Phase)
    (hs : ∀ it ∈ items, simpleItem it = true)
    (hcur : s.currentPhase ≠ some p)
    (hex : ∃ it ∈ items, p ∈ itemPhases it) :
    p ∈ phasesEntered (runFrom s ((items.map eventsOfItem).flatten)).2 := by
  induction items generalizing s with
  | nil =>
      obtain ⟨it, hmem, _⟩ := hex
      simp at hmem
  | cons it items ih =>
      rw [List.map_cons, List.flatten_cons, runFrom_append_snd, phasesEntered_append,
        List.mem_append]
      obtain ⟨x, hmem, hpi⟩ := hex
      rcases List.mem_cons.mp hmem with rfl | hmem2
      · exact Or.inl (stream_phases_item_complete x s p (hs x (by simp)) hcur hpi)
      · by_cases hpc : (runFrom s (eventsOfItem it)).1.currentPhase = some p
        · refine Or.inl (phaseTrack_mem _ s.currentPhase p ?_ hcur)
          rw [runFrom_phaseTrack]
          exact hpc
        · exact Or.inr (ih (runFrom s (eventsOfItem it)).1
            (fun y hy => hs y (by simp [hy])) hpc ⟨x, hmem2, hpi⟩)

theorem phasesEntered_adapter_items (items : List Item) (p : Phase) :
    p ∈ phasesEntered ((items.map renderItem).flatten) ↔
      ∃ it ∈ items, p ∈ itemPhases it := by
  induction items with
  | nil => simp [phasesEntered]
  | cons it items ih =>
      rw [List.map_cons, List.flatten_cons, phasesEntered_append, List.mem_append, ih]
      constructor
      · rintro (h | ⟨x, hm, hx⟩)
        · exact ⟨it, by simp, h⟩
        · exact ⟨x, by simp [hm], hx⟩
      · rintro ⟨x, hm, hx⟩
        rcases List.mem_cons.mp hm with rfl | hm2
        · exact Or.inl hx
        · exact Or.inr ⟨x, hm2, hx⟩

theorem phasesEntered_usage (r : ResponseObj) :
    phasesEntered (usageActions r) = [] := by
  by_cases h : r.toolOutputTokens > 0 <;> simp [usageActions, h, phasesEntered]

/-- C2 amended: for every finished response object and its streaming
delivery, the final answering text of the streaming interpreter equals
that of the non-streaming adapter, and for turns containing no
code-execution and no function-call items the sets of phases entered
agree as well.  (For code-execution and function-call turns the phase
sets genuinely differ between the two paths: the streaming path enters
`executing` / `function` phases the adapter never begins — see the
counterexample.) -/
theorem stream_adapter_equivalence (r : ResponseObj) :
    answerText (print_non_streaming_response r).1 =
        answerText (print_streaming_response (eventsOfResponse r)).1 ∧
      ((∀ it ∈ r.output, simpleItem it = true) →
        ∀ p : Phase,
          (p ∈ phasesEntered (print_non_streaming_response r).1 ↔
            p ∈ phasesEntered (print_streaming_response (eventsOfResponse r)).1)) := by
  have hstream : (print_streaming_response (eventsOfResponse r)).1 =
      (runFrom ⟨r.id, none⟩ ((r.output.map eventsOfItem).flatten)).2 := rfl
  constructor
  · rw [hstream]
    have h1 : answerText (print_non_streaming_response r).1 =
        strConcat (r.output.map itemAnswer) := by
      show answerTextAux none ((r.output.map renderItem).flatten ++ usageActions r) = _
      rw [answerTextAux_append, answer_adapter_items, answerTextAux_usage,
        String.append_empty]
    have h2 : answerText
        (runFrom ⟨r.id, none⟩ ((r.output.map eventsOfItem).flatten)).2 =
        strConcat (r.output.map itemAnswer) :=
      answer_stream_items r.output ⟨r.id, none⟩
    rw [h1, h2]
  · intro hs p
    rw [hstream]
    constructor
    · intro hmem
      have hmem2 : p ∈ phasesEntered
          ((r.output.map renderItem).flatten ++ usageActions r) := hmem
      rw [phasesEntered_append, phasesEntered_usage, List.append_nil] at hmem2
      exact stream_phases_complete r.output ⟨r.id, none⟩ p hs (by simp)
        ((phasesEntered_adapter_items r.output p).mp hmem2)
    · intro hmem
      have hex := stream_phases_sound r.output ⟨r.id, none⟩ p hs hmem
      show p ∈ phasesEntered ((r.output.map renderItem).flatten ++ usageActions r)
      rw [phasesEntered_append, phasesEntered_usage, List.append_nil]
      exact (phasesEntered_adapter_items r.output p).mpr hex

/-- C2 witness: for the concrete turn `[reasoning hello,
message with one output_text block holding world]`, both paths agree on the answering
text and on whether the reasoning phase was entered. -/
theorem stream_adapter_equivalence_witness :
    (answerText (print_non_streaming_response
          ⟨some ("id1"), [Item.reasoningItem ["hello"],
            Item.message [("output_text", "world")]], 0⟩).1 =
        answerText (print_streaming_response (eventsOfResponse
          ⟨some ("id1"), [Item.reasoningItem ["hello"],
            Item.message [("output_text", "world")]], 0⟩)).1) ∧
      (Phase.reasoning ∈ phasesEntered (print_non_streaming_response
            ⟨some ("id1"), [Item.reasoningItem ["hello"],
              Item.message [("output_text", "world")]], 0⟩).1 ↔
        Phase.reasoning ∈ phasesEntered (print_streaming_response (eventsOfResponse
            ⟨some ("id1"), [Item.reasoningItem ["hello"],
              Item.message [("output_text", "world")]], 0⟩)).1) :=
  ⟨(stream_adapter_equivalence
      ⟨some ("id1"), [Item.reasoningItem ["hello"],
        Item.message [("output_text", "world")]], 0⟩).1,
   (stream_adapter_equivalence
      ⟨some ("id1"), [Item.reasoningItem ["hello"],
        Item.message [("output_text", "world")]], 0⟩).2 (by decide) Phase.reasoning⟩

/-- C2 counterexample: for a turn consisting of one code-execution
item, the streaming interpreter enters the `executing` phase while the
adapter never begins it, so the sets of phases entered by the two
paths differ. -/
theorem stream_adapter_equivalence_cex :
    Phase.executing ∈ phasesEntered (print_streaming_response
        (eventsOfResponse ⟨none, [Item.codeCall ("x=1") []], 0⟩)).1 ∧
      Phase.executing ∉ phasesEntered (print_non_streaming_response
        ⟨none, [Item.codeCall ("x=1") []], 0⟩).1 := by
  decide

end ChatWithTools
